import Mathlib

/-!
Verification of the incremental synchronization engine of `jobstats.py`, a
GitLab CI job-statistics collector.

The embedding mirrors the Python source:

* `get_pipelines` (source lines 168-219): the pagination walker over the
  remote `/pipelines` endpoint, with the known-id early stop, the short/empty
  page stop, and the accumulated-count cap.  The sequence of remote pages is
  abstracted as an oracle `Nat → Except Unit (List Pipeline)` indexed by page
  number (page numbering starts at 1, matching `page_num = 1`); an `Except.error`
  models `http_get_json` terminating the process on a failed request.  The
  `while True` loop is embedded with explicit fuel: `none` means the loop has
  not terminated within the given fuel.
* `read_existing_csv` (143-165), `jobs2csv` (232-251), `main` (87-125):
  the persisted CSV table is modelled structurally as an optional list of
  lines (`none` = the path does not exist), each line being either the fixed
  header or one job row.
* `http_get_json` (128-140): modelled at the response level; the transport
  (urllib) hands the function a response object, and charset-decoding plus
  JSON parsing of the body is an abstract parameter `decodeJson`.

Python truthiness is modelled explicitly: `max_pipelines or 100` and
`max_pipelines and len(pipelines) >= max_pipelines` treat both `None` and `0`
as falsy, and `if since:` treats both `None` and the empty string as falsy.
-/

/-- One pipeline object as returned by the `/pipelines` endpoint; the sync
engine consults only `id` and (via the persisted table) `created_at`. -/
structure Pipeline where
  id : Nat
  created_at : String
deriving DecidableEq

/-- One job object as returned by the `/pipelines/{id}/jobs` endpoint, with the
fields that `jobs2csv` persists.  Fields the sync engine never inspects are
kept as opaque strings. -/
structure Job where
  id : Nat
  pipeline_id : Nat
  web_url : String
  created_at : String
  name : String
  ref : String
  status : String
  coverage : String
  duration : String
  queued_duration : String
deriving DecidableEq

/-- Python truthiness of an optional string: `None` and `""` are falsy
(`if since:` in `get_pipelines`). -/
def pyTruthy : Option String → Bool
  | none => false
  | some s => !s.isEmpty

/-- Python `x or d` for an optional integer: `None` and `0` fall back to the
default (`per_page = max_pipelines or 100`). -/
def pyOr : Option Nat → Nat → Nat
  | none, d => d
  | some 0, d => d
  | some (m + 1), _ => m + 1

/-- Python `max_pipelines and len(pipelines) >= max_pipelines`: with
`max_pipelines` equal to `None` or `0` the conjunction is falsy, otherwise it
is the comparison. -/
def capReached : Option Nat → Nat → Bool
  | none, _ => false
  | some 0, _ => false
  | some (m + 1), n => decide (m + 1 ≤ n)

/-- The `for pipeline in page` loop body of `get_pipelines`: append pipelines
to the accumulator until one with a known id is met; the second component is
the `stop_early` flag. -/
def scanPage (known : List Nat) (acc : List Pipeline) : List Pipeline → List Pipeline × Bool
  | [] => (acc, false)
  | p :: rest =>
    if p.id ∈ known then (acc, true)
    else scanPage known (acc ++ [p]) rest

/-- Source lines 184-186: when `since` is truthy, `max_pipelines` is set to
`None` before pagination begins. -/
def effective_cap (maxPipelines : Option Nat) (since : Option String) : Option Nat :=
  if pyTruthy since then none else maxPipelines

/-- Source line 187: `per_page = max_pipelines or 100`, computed after the
`since` override. -/
def effective_per_page (maxPipelines : Option Nat) (since : Option String) : Nat :=
  pyOr (effective_cap maxPipelines since) 100

/-- The `while True` pagination loop of `get_pipelines`, with fuel.  Result
`none` means the loop did not terminate within the fuel; otherwise the result
carries either the fatal-fetch outcome or the accumulated pipelines together
with the number of pages fetched (the page number of the last fetch, since
fetching starts at page 1). -/
def paginateFuel (remote : Nat → Except Unit (List Pipeline)) (per_page : Nat)
    (cap : Option Nat) (known : List Nat) :
    Nat → Nat → List Pipeline → Option (Except Unit (List Pipeline × Nat))
  | 0, _, _ => none
  | fuel + 1, page_num, acc =>
    match remote page_num with
    | .error e => some (.error e)
    | .ok page =>
      if (scanPage known acc page).2 || page.isEmpty || decide (page.length < per_page)
          || capReached cap (scanPage known acc page).1.length then
        some (.ok ((scanPage known acc page).1, page_num))
      else
        paginateFuel remote per_page cap known fuel (page_num + 1) (scanPage known acc page).1

/-- `get_pipelines` (source lines 168-219).  Token, endpoint, project, branch
and the rate-limit delay only affect the request URL and sleeping, so they are
absorbed into the page oracle `remote`. -/
def get_pipelines (maxPipelines : Option Nat) (since : Option String) (known : List Nat)
    (remote : Nat → Except Unit (List Pipeline)) (fuel : Nat) :
    Option (Except Unit (List Pipeline × Nat)) :=
  paginateFuel remote (effective_per_page maxPipelines since)
    (effective_cap maxPipelines since) known fuel 1 []

/-- A remote whose page fetches always succeed. -/
def pureRemote (f : Nat → List Pipeline) : Nat → Except Unit (List Pipeline) :=
  fun n => .ok (f n)

/-- Concatenation of pages `1..n` of a remote page sequence, newest first. -/
def concatUpTo (f : Nat → List Pipeline) : Nat → List Pipeline
  | 0 => []
  | n + 1 => concatUpTo f n ++ f (n + 1)

/-- The pipelines that occur strictly before the first pipeline with a known
identifier in a stream of pipelines. -/
def beforeFirstKnown (known : List Nat) (stream : List Pipeline) : List Pipeline :=
  stream.takeWhile (fun p => !(decide (p.id ∈ known)))

/-- One line of the persisted CSV table: either the fixed header line written
by `jobs2csv`, or one job row. -/
inductive Line where
  | header
  | jobRow (job : Job)
deriving DecidableEq

/-- `jobs2csv` (source lines 232-251): in append mode the rows are appended to
the existing contents (`open(path, "a")` creates the file when missing); in
write mode the file is truncated and the header line is written first.  One
row is written per job. -/
def jobs2csv (contents : Option (List Line)) (jobs : List Job) (append : Bool) : List Line :=
  if append then contents.getD [] ++ jobs.map Line.jobRow
  else Line.header :: jobs.map Line.jobRow

/-- The running-maximum update of `read_existing_csv` (source lines 158-160):
`if max_date is None or created > max_date: max_date = created`, where `>` is
Python's lexicographic string comparison. -/
def pyMaxDate (max_date : Option String) (created : String) : Option String :=
  match max_date with
  | none => some created
  | some d => if d < created then some created else some d

/-- The row loop of `read_existing_csv` (source lines 156-160): collect the
`pipeline-id` column and track the lexically maximal `created-date` column.
A literal header line in row position makes `int(row["pipeline-id"])` raise
(`ValueError`), modelled as `Except.error`. -/
def collectRows (pipeline_ids : List Nat) (max_date : Option String) :
    List Line → Except Unit (List Nat × Option String)
  | [] => .ok (pipeline_ids, max_date)
  | Line.header :: _ => .error ()
  | Line.jobRow j :: rest =>
    collectRows (pipeline_ids ++ [j.pipeline_id]) (pyMaxDate max_date j.created_at) rest

/-- `read_existing_csv` (source lines 143-165).  A missing path yields the
empty id set and no timestamp; `csv.DictReader` consumes the first line as the
field names (an empty file has no rows at all), and every following line is
one row.  A file whose first line is a job row has that row's values as field
names, so any further row fails the `row["pipeline-id"]` lookup, modelled as
`Except.error`. -/
def read_existing_csv : Option (List Line) → Except Unit (List Nat × Option String)
  | none => .ok ([], none)
  | some [] => .ok ([], none)
  | some (Line.header :: rows) => collectRows [] none rows
  | some (Line.jobRow _ :: rows) => if rows.isEmpty then .ok ([], none) else .error ()

/-- Source lines 97-99: `since = args.since`, then fall back to the max date
recovered from the existing table when no explicit value was passed. -/
def effective_since : Option String → Option String → Option String
  | some s, _ => some s
  | none, max_date => max_date

/-- `get_jobs_for_pipeline` (source lines 222-229): one fetch against the jobs
endpoint of the pipeline, abstracted as the oracle `remoteJobs` indexed by
pipeline id. -/
def get_jobs_for_pipeline (remoteJobs : Nat → Except Unit (List Job)) (pipeline_id : Nat) :
    Except Unit (List Job) :=
  remoteJobs pipeline_id

/-- The per-pipeline job-fetch loop of `main` (source lines 118-122): fetch
each new pipeline's jobs in order and accumulate them; the first failed fetch
terminates the process, discarding everything accumulated so far. -/
def fetchJobsLoop (remoteJobs : Nat → Except Unit (List Job)) :
    List Pipeline → Except Unit (List Job)
  | [] => .ok []
  | p :: rest =>
    match get_jobs_for_pipeline remoteJobs p.id with
    | .error e => .error e
    | .ok js =>
      match fetchJobsLoop remoteJobs rest with
      | .error e => .error e
      | .ok more => .ok (js ++ more)

/-- Observable outcome of one run of `main`: the persisted table afterwards,
how many times `jobs2csv` was invoked, the `since` value handed to
`get_pipelines` (when the run got that far), and whether the process
terminated through a failed fetch or a parse crash. -/
structure SyncResult where
  fs : Option (List Line)
  writerCalls : Nat
  usedSince : Option String
  exited : Bool
deriving DecidableEq

/-- `main` (source lines 87-125) over the embedded collaborators: read the
existing table, compute `append_mode` and the effective `since`, list the new
pipelines, return early when there are none, fetch each pipeline's jobs, and
finally write them.  `none` means the pagination loop ran out of fuel. -/
def main' (argsSince : Option String) (argsMaxPipelines : Option Nat)
    (remote : Nat → Except Unit (List Pipeline)) (remoteJobs : Nat → Except Unit (List Job))
    (fuel : Nat) (fs : Option (List Line)) : Option SyncResult :=
  match read_existing_csv fs with
  | .error _ => some ⟨fs, 0, none, true⟩
  | .ok (known_pipeline_ids, max_date) =>
    let append_mode := decide (0 < known_pipeline_ids.length)
    let since := effective_since argsSince max_date
    match get_pipelines argsMaxPipelines since known_pipeline_ids remote fuel with
    | none => none
    | some (.error _) => some ⟨fs, 0, since, true⟩
    | some (.ok (pipelines, _)) =>
      if pipelines.isEmpty then some ⟨fs, 0, since, false⟩
      else
        match fetchJobsLoop remoteJobs pipelines with
        | .error _ => some ⟨fs, 0, since, true⟩
        | .ok jobs => some ⟨some (jobs2csv fs jobs append_mode), 1, since, false⟩

/-- Number of header lines in a persisted table. -/
def countHeaders (lines : List Line) : Nat :=
  lines.countP (fun l => decide (l = Line.header))

/-- An HTTP response as handed to `http_get_json` by the transport: status
code, the `charset` content-type parameter (`None` when absent), and the raw
body bytes. -/
structure HttpResponse where
  status : Nat
  charset : Option String
  body : List Nat

/-- Outcome of `http_get_json`: either the decoded value, or process
termination (`sys.exit(1)`) after logging the failing URL and status. -/
inductive FetchOutcome (α : Type) where
  | ok (value : α)
  | fatal (loggedUrl : String) (loggedStatus : Nat) (exitCode : Nat)
deriving DecidableEq

/-- Python `x or d` over an optional string: `None` and `""` fall back to the
default (`response.info().get_param("charset") or "utf-8"`). -/
def pyOrStr (x : Option String) (d : String) : String :=
  match x with
  | none => d
  | some s => if s.isEmpty then d else s

/-- `http_get_json` (source lines 128-140), given the response the transport
produced for the request.  `decodeJson charset bytes` abstracts
`json.loads(bytes.decode(charset))`. -/
def http_get_json {α : Type} (decodeJson : String → List Nat → α) (url : String)
    (resp : HttpResponse) : FetchOutcome α :=
  if resp.status ≠ 200 then .fatal url resp.status 1
  else .ok (decodeJson (pyOrStr resp.charset "utf-8") resp.body)

/-! Concrete fixtures used by witnesses and counterexamples. -/

/-- A concrete job record. -/
def sampleJob (id pipeline_id : Nat) (created : String) : Job :=
  ⟨id, pipeline_id, "https:u", created, "build", "main", "success", "91.0", "10.0", "1.0"⟩

/-- Three one-pipeline pages, the known pipeline 42 sitting on page 3. -/
def pagesKnownOnPage3 : Nat → List Pipeline
  | 1 => [⟨1, "2024-01-03"⟩]
  | 2 => [⟨2, "2024-01-02"⟩]
  | 3 => [⟨42, "2024-01-01"⟩]
  | _ => []

/-- A single page holding one fresh pipeline followed by the known pipeline 42. -/
def pagesKnownOnPage1 : Nat → List Pipeline
  | 1 => [⟨7, "2024-01-05"⟩, ⟨42, "2024-01-04"⟩]
  | _ => []

/-- A remote with exactly one pipeline, id 7, on page 1. -/
def remoteOne : Nat → Except Unit (List Pipeline) :=
  fun n => if n = 1 then .ok [⟨7, "2024-02-01"⟩] else .ok []

/-- A jobs oracle returning one job per pipeline. -/
def jobsOne : Nat → Except Unit (List Job) :=
  fun pid => .ok [sampleJob (10 * pid) pid "2024-02-01"]

/-- A remote whose pages are all empty. -/
def remoteEmpty : Nat → Except Unit (List Pipeline) :=
  fun _ => .ok []

/-- A jobs oracle with no jobs. -/
def jobsEmpty : Nat → Except Unit (List Job) :=
  fun _ => .ok []

/-! Helper lemmas about the page scan. -/

/-- If the scan did not raise `stop_early`, it appended the whole page. -/
theorem scanPage_not_stopped (known : List Nat) :
    ∀ (page acc : List Pipeline),
      (scanPage known acc page).2 = false → (scanPage known acc page).1 = acc ++ page := by
  intro page
  induction page with
  | nil => intro acc _; simp [scanPage]
  | cons p rest ih =>
    intro acc h
    by_cases hp : p.id ∈ known
    · simp [scanPage, hp] at h
    · simp only [scanPage, if_neg hp] at h ⊢
      rw [ih _ h]
      simp

/-- A page without known identifiers is appended whole and does not stop. -/
theorem scanPage_no_hit (known : List Nat) :
    ∀ (page acc : List Pipeline), (∀ p ∈ page, p.id ∉ known) →
      scanPage known acc page = (acc ++ page, false) := by
  intro page
  induction page with
  | nil => intro acc _; simp [scanPage]
  | cons p rest ih =>
    intro acc h
    have hp : p.id ∉ known := h p (by simp)
    simp only [scanPage, if_neg hp]
    rw [ih (acc ++ [p]) (fun q hq => h q (by simp [hq]))]
    simp

/-- A page containing a known identifier stops early, contributing exactly the
pipelines that precede the first known one. -/
theorem scanPage_hit (known : List Nat) :
    ∀ (page acc : List Pipeline), (∃ p ∈ page, p.id ∈ known) →
      scanPage known acc page = (acc ++ beforeFirstKnown known page, true) := by
  intro page
  induction page with
  | nil => intro acc h; simp at h
  | cons p rest ih =>
    intro acc h
    by_cases hp : p.id ∈ known
    · simp [scanPage, hp, beforeFirstKnown, List.takeWhile]
    · obtain ⟨q, hq, hqk⟩ := h
      rcases List.mem_cons.mp hq with rfl | hq'
      · exact absurd hqk hp
      · simp only [scanPage, if_neg hp]
        rw [ih (acc ++ [p]) ⟨q, hq', hqk⟩]
        simp [beforeFirstKnown, List.takeWhile, hp]

/-- The scan result is no longer than accumulator plus page. -/
theorem scanPage_length_le (known : List Nat) :
    ∀ (page acc : List Pipeline),
      (scanPage known acc page).1.length ≤ acc.length + page.length := by
  intro page
  induction page with
  | nil => intro acc; simp [scanPage]
  | cons p rest ih =>
    intro acc
    by_cases hp : p.id ∈ known
    · simp only [scanPage, if_pos hp]
      omega
    · simp only [scanPage, if_neg hp]
      have := ih (acc ++ [p])
      simp only [List.length_append, List.length_cons, List.length_nil] at this ⊢
      omega

/-- With the count cap equal to the page size (the capped, no-`since`
configuration), the very first page always triggers a stopping rule. -/
theorem paginateFuel_capped_one (m : Nat) (known : List Nat)
    (remote : Nat → Except Unit (List Pipeline)) (page : List Pipeline)
    (hpage : remote 1 = .ok page) (fuel : Nat) :
    paginateFuel remote (m + 1) (some (m + 1)) known (fuel + 1) 1 []
      = some (.ok ((scanPage known [] page).1, 1)) := by
  have hcond : ((scanPage known [] page).2 || page.isEmpty || decide (page.length < m + 1)
      || capReached (some (m + 1)) (scanPage known [] page).1.length) = true := by
    cases hs : (scanPage known [] page).2 with
    | true => simp [hs]
    | false =>
      have h1 : (scanPage known [] page).1 = page := by
        simpa using scanPage_not_stopped known page [] hs
      by_cases hlen : page.length < m + 1
      · simp [hlen]
      · have hc : capReached (some (m + 1)) (scanPage known [] page).1.length = true := by
          simp [capReached, h1]
          omega
        simp [hc]
  simp only [paginateFuel, hpage]
  rw [if_pos hcond]

/-- C10: in the count-capped configuration (a positive cap, no truthy `since`),
pagination fetches exactly one page: the requested page size equals the cap, so
the first page is short, reaches the cap, or stops on a known id — or its fetch
already terminates the process. -/
theorem claim_C10 (m : Nat) (since : Option String) (known : List Nat)
    (remote : Nat → Except Unit (List Pipeline)) (fuel : Nat)
    (hsince : pyTruthy since = false) (hm : 0 < m) :
    ∃ out, get_pipelines (some m) since known remote (fuel + 1) = some out
      ∧ ∀ ps n, out = Except.ok (ps, n) → n = 1 := by
  obtain ⟨k, rfl⟩ : ∃ k, m = k + 1 := ⟨m - 1, by omega⟩
  have hcap : effective_cap (some (k + 1)) since = some (k + 1) := by
    simp [effective_cap, hsince]
  have hpp : effective_per_page (some (k + 1)) since = k + 1 := by
    simp [effective_per_page, hcap, pyOr]
  cases hre : remote 1 with
  | error e =>
    refine ⟨.error e, ?_, by intro ps n h; cases h⟩
    unfold get_pipelines
    rw [hpp, hcap]
    simp [paginateFuel, hre]
  | ok page =>
    refine ⟨.ok ((scanPage known [] page).1, 1), ?_, ?_⟩
    · unfold get_pipelines
      rw [hpp, hcap]
      exact paginateFuel_capped_one k known remote page hre fuel
    · intro ps n h
      cases h
      rfl

/-- Witness for C10 at a concrete configuration. -/
theorem claim_C10_witness :
    ∃ out, get_pipelines (some 1) none [] remoteEmpty 1 = some out
      ∧ ∀ ps n, out = Except.ok (ps, n) → n = 1 :=
  claim_C10 1 none [] remoteEmpty 0 (by decide) (by decide)

/-- C4: when a truthy `since` lower bound is supplied, the count cap is
discarded, the default page size 100 is used, the accumulated-count stopping
rule can never fire, and pagination behaves exactly as with no cap configured. -/
theorem claim_C4 (maxPipelines : Option Nat) (since : Option String) (known : List Nat)
    (remote : Nat → Except Unit (List Pipeline)) (fuel : Nat)
    (h : pyTruthy since = true) :
    effective_cap maxPipelines since = none
    ∧ effective_per_page maxPipelines since = 100
    ∧ (∀ n, capReached (effective_cap maxPipelines since) n = false)
    ∧ get_pipelines maxPipelines since known remote fuel
        = get_pipelines none since known remote fuel := by
  have hc : effective_cap maxPipelines since = none := by simp [effective_cap, h]
  have hc' : effective_cap none since = none := by simp [effective_cap]
  refine ⟨hc, by simp [effective_per_page, hc, pyOr], fun n => by simp [hc, capReached], ?_⟩
  unfold get_pipelines effective_per_page
  rw [hc, hc']

/-- Witness for C4 at a concrete configuration. -/
theorem claim_C4_witness :
    effective_cap (some 5) (some "2024-01-01") = none
    ∧ effective_per_page (some 5) (some "2024-01-01") = 100
    ∧ (∀ n, capReached (effective_cap (some 5) (some "2024-01-01")) n = false)
    ∧ get_pipelines (some 5) (some "2024-01-01") [] remoteEmpty 3
        = get_pipelines none (some "2024-01-01") [] remoteEmpty 3 :=
  claim_C4 (some 5) (some "2024-01-01") [] remoteEmpty 3 (by decide)

/-- C2: when the pipeline listing returns no new pipelines, `main'` returns
without invoking the persistence writer and the persisted table is unchanged,
so a second run over an unchanged remote adds zero rows. -/
theorem claim_C2 (argsSince : Option String) (argsMax : Option Nat)
    (remote : Nat → Except Unit (List Pipeline)) (remoteJobs : Nat → Except Unit (List Job))
    (fuel : Nat) (fs : Option (List Line)) (known : List Nat) (max_date : Option String) (n : Nat)
    (hread : read_existing_csv fs = .ok (known, max_date))
    (hpl : get_pipelines argsMax (effective_since argsSince max_date) known remote fuel
             = some (.ok ([], n))) :
    main' argsSince argsMax remote remoteJobs fuel fs
      = some ⟨fs, 0, effective_since argsSince max_date, false⟩ := by
  unfold main'
  rw [hread]
  simp only [hpl]
  simp

/-- Witness for C2: a fresh store and a remote with no pipelines at all. -/
theorem claim_C2_witness :
    main' none (some 20) remoteEmpty jobsEmpty 1 none
      = some ⟨none, 0, effective_since none none, false⟩ :=
  claim_C2 none (some 20) remoteEmpty jobsEmpty 1 none [] none 1 rfl rfl

/-- A remote page sequence that reaches a short page makes the walk stop
within `d + 1` fetches, where the short page is `d` pages ahead. -/
theorem paginateFuel_term (f : Nat → List Pipeline) (pp : Nat) (cap : Option Nat)
    (known : List Nat) :
    ∀ (d page_num : Nat) (acc : List Pipeline),
      (f (page_num + d)).length < pp →
      ∃ out, paginateFuel (pureRemote f) pp cap known (d + 1) page_num acc = some out := by
  intro d
  induction d with
  | zero =>
    intro page_num acc h
    rw [Nat.add_zero] at h
    have hc : ((scanPage known acc (f page_num)).2 || (f page_num).isEmpty
        || decide ((f page_num).length < pp)
        || capReached cap (scanPage known acc (f page_num)).1.length) = true := by
      simp [h]
    refine ⟨.ok ((scanPage known acc (f page_num)).1, page_num), ?_⟩
    simp only [paginateFuel, pureRemote]
    rw [if_pos hc]
  | succ d ih =>
    intro page_num acc h
    by_cases hc : ((scanPage known acc (f page_num)).2 || (f page_num).isEmpty
        || decide ((f page_num).length < pp)
        || capReached cap (scanPage known acc (f page_num)).1.length) = true
    · refine ⟨.ok ((scanPage known acc (f page_num)).1, page_num), ?_⟩
      simp only [paginateFuel, pureRemote]
      rw [if_pos hc]
    · have h' : (f ((page_num + 1) + d)).length < pp := by
        have : (page_num + 1) + d = page_num + (d + 1) := by omega
        rw [this]
        exact h
      obtain ⟨out, hout⟩ := ih (page_num + 1) (scanPage known acc (f page_num)).1 h'
      refine ⟨out, ?_⟩
      simp only [paginateFuel, pureRemote]
      rw [if_neg hc]
      exact hout

/-- C7: pagination terminates on every remote page sequence that eventually
yields a page shorter than the requested page size (in particular an empty
page); and in the count-capped configuration with well-formed pages the result
holds at most `maxPipelines` pipelines, obtained from a single page. -/
theorem claim_C7 :
    (∀ (maxPipelines : Option Nat) (since : Option String) (known : List Nat)
        (f : Nat → List Pipeline) (k : Nat), 1 ≤ k →
        (f k).length < effective_per_page maxPipelines since →
        ∃ fuel out, get_pipelines maxPipelines since known (pureRemote f) fuel = some out)
    ∧ (∀ (m : Nat) (since : Option String) (known : List Nat)
        (remote : Nat → Except Unit (List Pipeline)) (fuel : Nat)
        (ps : List Pipeline) (n : Nat),
        pyTruthy since = false → 0 < m →
        (∀ i page, remote i = .ok page → page.length ≤ m) →
        get_pipelines (some m) since known remote fuel = some (.ok (ps, n)) →
        ps.length ≤ m ∧ n = 1) := by
  constructor
  · intro maxPipelines since known f k hk hshort
    refine ⟨k, ?_⟩
    have h1 : (f (1 + (k - 1))).length < effective_per_page maxPipelines since := by
      have : 1 + (k - 1) = k := by omega
      rw [this]
      exact hshort
    obtain ⟨out, hout⟩ := paginateFuel_term f _ _ known (k - 1) 1 [] h1
    refine ⟨out, ?_⟩
    unfold get_pipelines
    have : k - 1 + 1 = k := by omega
    rw [← this]
    exact hout
  · intro m since known remote fuel ps n hsince hm hwf hrun
    obtain ⟨k, rfl⟩ : ∃ k, m = k + 1 := ⟨m - 1, by omega⟩
    obtain ⟨u, rfl⟩ : ∃ u, fuel = u + 1 := by
      cases fuel with
      | zero =>
        exfalso
        rw [show get_pipelines (some (k + 1)) since known remote 0 = none from by
          unfold get_pipelines; rfl] at hrun
        cases hrun
      | succ u => exact ⟨u, rfl⟩
    have hcap : effective_cap (some (k + 1)) since = some (k + 1) := by
      simp [effective_cap, hsince]
    have hpp : effective_per_page (some (k + 1)) since = k + 1 := by
      simp [effective_per_page, hcap, pyOr]
    cases hre : remote 1 with
    | error e =>
      exfalso
      unfold get_pipelines at hrun
      rw [hpp, hcap] at hrun
      simp only [paginateFuel, hre] at hrun
      cases hrun
    | ok page =>
      unfold get_pipelines at hrun
      rw [hpp, hcap, paginateFuel_capped_one k known remote page hre u] at hrun
      injection hrun with h'
      injection h' with h''
      injection h'' with ha hb
      subst ha
      subst hb
      refine ⟨?_, rfl⟩
      have := scanPage_length_le known page []
      have hwf1 := hwf 1 page hre
      simp at this
      omega

/-- Witness for C7 at concrete remotes: an all-empty remote for termination,
and a two-capped remote with a single short page for the count bound. -/
theorem claim_C7_witness :
    (∃ fuel out, get_pipelines none none [] (pureRemote (fun _ => [])) fuel = some out)
    ∧ (([⟨7, "2024-02-01"⟩] : List Pipeline).length ≤ 2 ∧ 1 = 1) := by
  constructor
  · exact claim_C7.1 none none [] (fun _ => []) 1 (by omega) (by decide)
  · refine claim_C7.2 2 none [] remoteOne 1 [⟨7, "2024-02-01"⟩] 1 (by decide) (by decide) ?_ rfl
    intro i page h
    unfold remoteOne at h
    by_cases hi : i = 1
    · rw [if_pos hi] at h
      injection h with h'
      rw [← h']
      decide
    · rw [if_neg hi] at h
      injection h with h'
      rw [← h']
      decide

/-- Every member of `concatUpTo f n` comes from a page `1..n`. -/
theorem mem_concatUpTo (f : Nat → List Pipeline) :
    ∀ (n : Nat) (p : Pipeline), p ∈ concatUpTo f n → ∃ i, 1 ≤ i ∧ i ≤ n ∧ p ∈ f i := by
  intro n
  induction n with
  | zero => intro p h; simp [concatUpTo] at h
  | succ n ih =>
    intro p h
    simp only [concatUpTo, List.mem_append] at h
    rcases h with h | h
    · obtain ⟨i, h1, h2, h3⟩ := ih p h
      exact ⟨i, h1, by omega, h3⟩
    · exact ⟨n + 1, by omega, le_refl _, h⟩

/-- `takeWhile` passes through a prefix on which the predicate holds. -/
theorem takeWhile_append_all {α : Type} (pred : α → Bool) :
    ∀ (l1 l2 : List α), (∀ x ∈ l1, pred x = true) →
      (l1 ++ l2).takeWhile pred = l1 ++ l2.takeWhile pred := by
  intro l1
  induction l1 with
  | nil => intro l2 _; simp
  | cons x rest ih =>
    intro l2 h
    have hx := h x (by simp)
    simp only [List.cons_append, List.takeWhile, hx]
    rw [show rest.append l2 = rest ++ l2 from rfl]
    rw [ih l2 (fun y hy => h y (by simp [hy]))]

/-- When pages `1..j-1` hold no known identifier, the before-the-first-known
prefix of the first `j` pages splits at page `j`. -/
theorem beforeFirstKnown_split (known : List Nat) (f : Nat → List Pipeline) (j : Nat)
    (hj : 1 ≤ j) (hnk : ∀ i, 1 ≤ i → i < j → ∀ p ∈ f i, p.id ∉ known) :
    beforeFirstKnown known (concatUpTo f j)
      = concatUpTo f (j - 1) ++ beforeFirstKnown known (f j) := by
  obtain ⟨k, rfl⟩ : ∃ k, j = k + 1 := ⟨j - 1, by omega⟩
  simp only [concatUpTo, Nat.add_sub_cancel]
  unfold beforeFirstKnown
  rw [takeWhile_append_all]
  intro p hp
  obtain ⟨i, h1, h2, h3⟩ := mem_concatUpTo f k p hp
  have := hnk i h1 (by omega) p h3
  simp [this]

/-- While pages are full of unknown pipelines and the cap is not reached, the
walk keeps fetching, and it stops exactly at the page holding the first known
identifier, returning the accumulated prefix. -/
theorem paginateFuel_reaches (f : Nat → List Pipeline) (pp : Nat) (cap : Option Nat)
    (known : List Nat) (j : Nat) (hpp : 0 < pp)
    (hfull : ∀ i, 1 ≤ i → i < j → (f i).length = pp)
    (hnk : ∀ i, 1 ≤ i → i < j → ∀ p ∈ f i, p.id ∉ known)
    (hcap : ∀ i, 1 ≤ i → i < j → capReached cap (concatUpTo f i).length = false)
    (hhit : ∃ p ∈ f j, p.id ∈ known) :
    ∀ (d page_num fuel : Nat), page_num + d = j → 1 ≤ page_num → d + 1 ≤ fuel →
      paginateFuel (pureRemote f) pp cap known fuel page_num (concatUpTo f (page_num - 1))
        = some (.ok (concatUpTo f (j - 1) ++ beforeFirstKnown known (f j), j)) := by
  intro d
  induction d with
  | zero =>
    intro page_num fuel hsum h1 hfuel
    obtain ⟨fu, rfl⟩ : ∃ fu, fuel = fu + 1 := ⟨fuel - 1, by omega⟩
    have hpn : page_num = j := by omega
    subst hpn
    have hscan := scanPage_hit known (f page_num) (concatUpTo f (page_num - 1)) hhit
    simp only [paginateFuel, pureRemote]
    rw [hscan]
    simp
  | succ d ih =>
    intro page_num fuel hsum h1 hfuel
    obtain ⟨fu, rfl⟩ : ∃ fu, fuel = fu + 1 := ⟨fuel - 1, by omega⟩
    have hlt : page_num < j := by omega
    have hscan := scanPage_no_hit known (f page_num) (concatUpTo f (page_num - 1))
        (hnk page_num h1 hlt)
    have hconcat : concatUpTo f (page_num - 1) ++ f page_num = concatUpTo f page_num := by
      obtain ⟨k, rfl⟩ : ∃ k, page_num = k + 1 := ⟨page_num - 1, by omega⟩
      simp [concatUpTo]
    have hlen : (f page_num).length = pp := hfull page_num h1 hlt
    have hne : (f page_num).isEmpty = false := by
      cases hfp : f page_num with
      | nil =>
        rw [hfp] at hlen
        simp at hlen
        omega
      | cons a l => simp
    simp only [paginateFuel, pureRemote]
    rw [hscan]
    have hcond : ((concatUpTo f (page_num - 1) ++ f page_num, false).2
        || (f page_num).isEmpty || decide ((f page_num).length < pp)
        || capReached cap (concatUpTo f (page_num - 1) ++ f page_num, false).1.length)
        = false := by
      simp only [hne, hlen]
      simp only [hconcat]
      simp [hcap page_num h1 hlt]
    rw [if_neg (by rw [hcond]; exact Bool.false_ne_true)]
    simp only [hconcat]
    have heq : concatUpTo f page_num = concatUpTo f ((page_num + 1) - 1) := by
      simp
    rw [heq]
    exact ih (page_num + 1) fu (by omega) (by omega) (by omega)

/-- C1 (amended): provided the walk actually reaches the first known pipeline
— every earlier page is full of unknown pipelines and the accumulated-count
cap does not fire before the hit — the listing returns exactly the pipelines
strictly before the first known-id pipeline of the concatenated page stream,
and no page beyond the one holding that pipeline is fetched. -/
theorem claim_C1_amended (maxPipelines : Option Nat) (since : Option String) (known : List Nat)
    (f : Nat → List Pipeline) (j fuel : Nat) (hj : 1 ≤ j)
    (hfull : ∀ i, 1 ≤ i → i < j → (f i).length = effective_per_page maxPipelines since)
    (hnk : ∀ i, 1 ≤ i → i < j → ∀ p ∈ f i, p.id ∉ known)
    (hcap : ∀ i, 1 ≤ i → i < j →
      capReached (effective_cap maxPipelines since) (concatUpTo f i).length = false)
    (hhit : ∃ p ∈ f j, p.id ∈ known)
    (hfuel : j ≤ fuel) :
    get_pipelines maxPipelines since known (pureRemote f) fuel
      = some (.ok (beforeFirstKnown known (concatUpTo f j), j)) := by
  have hpp : 0 < effective_per_page maxPipelines since := by
    unfold effective_per_page
    cases effective_cap maxPipelines since with
    | none => simp [pyOr]
    | some m =>
      cases m with
      | zero => simp [pyOr]
      | succ k => simp [pyOr]
  have hrun := paginateFuel_reaches f _ _ known j hpp hfull hnk hcap hhit
      (j - 1) 1 fuel (by omega) (by omega) (by omega)
  unfold get_pipelines
  rw [beforeFirstKnown_split known f j hj hnk]
  exact hrun

/-- Counterexample to C1 as stated: with the count cap configured (cap 1, page
size 1) and the known pipeline 42 sitting on page 3, the walk stops after page
1 on the accumulated-count rule and returns only pipeline 1, not the full
prefix [1, 2] that precedes the first known pipeline in the concatenated
stream. -/
theorem claim_C1_counterexample :
    get_pipelines (some 1) none [42] (pureRemote pagesKnownOnPage3) 10
      = some (.ok ([⟨1, "2024-01-03"⟩], 1))
    ∧ beforeFirstKnown [42] (concatUpTo pagesKnownOnPage3 3)
      = [⟨1, "2024-01-03"⟩, ⟨2, "2024-01-02"⟩]
    ∧ ([⟨1, "2024-01-03"⟩] : List Pipeline)
      ≠ [⟨1, "2024-01-03"⟩, ⟨2, "2024-01-02"⟩] :=
  ⟨rfl, rfl, by decide⟩

/-- Witness for the amended C1: the known pipeline sits on the first page, so
the walk returns the single fresh pipeline before it and fetches one page. -/
theorem claim_C1_witness :
    get_pipelines (some 5) none [42] (pureRemote pagesKnownOnPage1) 1
      = some (.ok (beforeFirstKnown [42] (concatUpTo pagesKnownOnPage1 1), 1)) :=
  claim_C1_amended (some 5) none [42] pagesKnownOnPage1 1 1 (by omega)
    (by intro i h1 h2; omega)
    (by intro i h1 h2; omega)
    (by intro i h1 h2; omega)
    (by decide)
    (by omega)

/-- Unrolling the row loop over a well-formed block of job rows: the
`pipeline-id` column values are appended in order and the max-date accumulator
is folded with `pyMaxDate`. -/
theorem collectRows_spec (jobs : List Job) :
    ∀ (ids : List Nat) (md : Option String),
      collectRows ids md (jobs.map Line.jobRow)
        = .ok (ids ++ jobs.map Job.pipeline_id,
               jobs.foldl (fun a j => pyMaxDate a j.created_at) md) := by
  induction jobs with
  | nil => intro ids md; simp [collectRows]
  | cons j rest ih =>
    intro ids md
    simp only [List.map_cons, collectRows, List.foldl_cons]
    rw [ih]
    simp

/-- `pyMaxDate` always yields a value that dominates both arguments and is one
of them. -/
theorem pyMaxDate_spec (md : Option String) (c : String) :
    ∃ m, pyMaxDate md c = some m ∧ c ≤ m ∧ (∀ d, md = some d → d ≤ m)
      ∧ (m = c ∨ md = some m) := by
  cases md with
  | none =>
    refine ⟨c, rfl, le_refl c, ?_, Or.inl rfl⟩
    intro d h
    cases h
  | some d =>
    by_cases h : d < c
    · refine ⟨c, by simp [pyMaxDate, h], le_refl c, ?_, Or.inl rfl⟩
      intro d' hd'
      injection hd' with h'
      subst h'
      exact le_of_lt h
    · refine ⟨d, by simp [pyMaxDate, h], le_of_not_lt h, ?_, Or.inr rfl⟩
      intro d' hd'
      injection hd' with h'
      subst h'
      exact le_refl d

/-- The folded `pyMaxDate` accumulator is the lexical maximum of the starting
value and the `created-date` column values. -/
theorem foldMax_spec (jobs : List Job) :
    ∀ (md : Option String) (m : String),
      jobs.foldl (fun a j => pyMaxDate a j.created_at) md = some m →
      (md = some m ∨ m ∈ jobs.map Job.created_at)
      ∧ (∀ c ∈ jobs.map Job.created_at, c ≤ m)
      ∧ (∀ d, md = some d → d ≤ m) := by
  induction jobs with
  | nil =>
    intro md m h
    simp only [List.foldl_nil] at h
    refine ⟨Or.inl h, by simp, ?_⟩
    intro d hd
    rw [h] at hd
    injection hd with h'
    rw [h']
  | cons j rest ih =>
    intro md m h
    simp only [List.foldl_cons] at h
    obtain ⟨h1, h2, h3⟩ := ih (pyMaxDate md j.created_at) m h
    obtain ⟨m', hm', hcle, hdle, hcase⟩ := pyMaxDate_spec md j.created_at
    have hm'le : m' ≤ m := h3 m' hm'
    refine ⟨?_, ?_, ?_⟩
    · rcases h1 with h1 | h1
      · rw [hm'] at h1
        injection h1 with h1'
        subst h1'
        rcases hcase with hc | hc
        · right; simp [hc]
        · left; exact hc
      · right; simp [h1]
    · intro c hc
      simp only [List.map_cons, List.mem_cons] at hc
      rcases hc with rfl | hc
      · exact le_trans hcle hm'le
      · exact h2 c (by simpa using hc)
    · intro d hd
      exact le_trans (hdle d hd) hm'le

/-- Folding `pyMaxDate` over at least one row always produces a timestamp. -/
theorem foldMax_isSome (jobs : List Job) :
    ∀ md : Option String, (md.isSome ∨ jobs ≠ []) →
      (jobs.foldl (fun a j => pyMaxDate a j.created_at) md).isSome := by
  induction jobs with
  | nil =>
    intro md h
    rcases h with h | h
    · simpa using h
    · exact absurd rfl h
  | cons j rest ih =>
    intro md _
    simp only [List.foldl_cons]
    apply ih
    left
    obtain ⟨m', hm', _, _, _⟩ := pyMaxDate_spec md j.created_at
    simp [hm']

/-- C9: the known-state reader returns the empty id set and an absent
timestamp for a missing path and for an empty-but-existing file, and on a
well-formed table with a header and job rows it returns the `pipeline-id`
column values (as a set, i.e. up to membership) together with the lexically
maximal `created-date` column value. -/
theorem claim_C9 :
    read_existing_csv none = .ok ([], none)
    ∧ read_existing_csv (some []) = .ok ([], none)
    ∧ ∀ jobs : List Job, ∃ ids md,
        read_existing_csv (some (Line.header :: jobs.map Line.jobRow)) = .ok (ids, md)
        ∧ (∀ pid, pid ∈ ids ↔ pid ∈ jobs.map Job.pipeline_id)
        ∧ (jobs = [] → md = none)
        ∧ (jobs ≠ [] → md.isSome)
        ∧ (∀ m, md = some m →
            m ∈ jobs.map Job.created_at ∧ ∀ c ∈ jobs.map Job.created_at, c ≤ m) := by
  refine ⟨rfl, rfl, ?_⟩
  intro jobs
  refine ⟨jobs.map Job.pipeline_id,
    jobs.foldl (fun a j => pyMaxDate a j.created_at) none, ?_, ?_, ?_, ?_, ?_⟩
  · show collectRows [] none (jobs.map Line.jobRow) = _
    rw [collectRows_spec]
    simp
  · intro pid
    exact Iff.rfl
  · intro h
    subst h
    rfl
  · intro h
    exact foldMax_isSome jobs none (Or.inr h)
  · intro m hm
    obtain ⟨h1, h2, _⟩ := foldMax_spec jobs none m hm
    rcases h1 with h1 | h1
    · cases h1
    · exact ⟨h1, h2⟩

/-- Witness for C9 on a concrete two-row table whose later row has the larger
creation date. -/
theorem claim_C9_witness :
    ∃ ids md,
      read_existing_csv (some (Line.header ::
        ([sampleJob 1 5 "2024-01-03", sampleJob 2 6 "2024-01-05"].map Line.jobRow)))
        = .ok (ids, md)
      ∧ (∀ pid, pid ∈ ids ↔
          pid ∈ [sampleJob 1 5 "2024-01-03", sampleJob 2 6 "2024-01-05"].map Job.pipeline_id)
      ∧ ([sampleJob 1 5 "2024-01-03", sampleJob 2 6 "2024-01-05"] = ([] : List Job) → md = none)
      ∧ ([sampleJob 1 5 "2024-01-03", sampleJob 2 6 "2024-01-05"] ≠ ([] : List Job) → md.isSome)
      ∧ (∀ m, md = some m →
          m ∈ [sampleJob 1 5 "2024-01-03", sampleJob 2 6 "2024-01-05"].map Job.created_at
          ∧ ∀ c ∈ [sampleJob 1 5 "2024-01-03", sampleJob 2 6 "2024-01-05"].map Job.created_at,
              c ≤ m) :=
  claim_C9.2.2 [sampleJob 1 5 "2024-01-03", sampleJob 2 6 "2024-01-05"]

/-- C6: the `since` handed to the pipeline listing is the caller's explicit
value when one was passed, otherwise the maximum creation timestamp recovered
from the existing table, otherwise unset (fresh store). -/
theorem claim_C6 (argsSince : Option String) (argsMax : Option Nat)
    (remote : Nat → Except Unit (List Pipeline)) (remoteJobs : Nat → Except Unit (List Job))
    (fuel : Nat) (fs : Option (List Line)) (known : List Nat) (max_date : Option String)
    (r : SyncResult)
    (hread : read_existing_csv fs = .ok (known, max_date))
    (hrun : main' argsSince argsMax remote remoteJobs fuel fs = some r) :
    r.usedSince = effective_since argsSince max_date
    ∧ (∀ s, argsSince = some s → r.usedSince = some s)
    ∧ (argsSince = none → r.usedSince = max_date)
    ∧ (argsSince = none → fs = none → r.usedSince = none) := by
  have hus : r.usedSince = effective_since argsSince max_date := by
    simp only [main', hread] at hrun
    cases hpl : get_pipelines argsMax (effective_since argsSince max_date) known remote fuel with
    | none => rw [hpl] at hrun; cases hrun
    | some res =>
      rw [hpl] at hrun
      cases res with
      | error e =>
        injection hrun with h'
        rw [← h']
      | ok pr =>
        obtain ⟨pipelines, n⟩ := pr
        by_cases hemp : pipelines.isEmpty
        · simp only [hemp, if_true] at hrun
          injection hrun with h'
          rw [← h']
        · simp only [hemp, if_false] at hrun
          cases hfj : fetchJobsLoop remoteJobs pipelines with
          | error e =>
            rw [hfj] at hrun
            injection hrun with h'
            rw [← h']
          | ok jobs =>
            rw [hfj] at hrun
            injection hrun with h'
            rw [← h']
  refine ⟨hus, ?_, ?_, ?_⟩
  · intro s hs
    rw [hus, hs]
    rfl
  · intro hn
    rw [hus, hn]
    rfl
  · intro hn hfs
    subst hfs
    have hmd : max_date = none := by
      rw [show read_existing_csv none = Except.ok (([] : List Nat), (none : Option String))
        from rfl] at hread
      injection hread with h'
      injection h' with h1 h2
      exact h2.symm
    rw [hus, hn, hmd]
    rfl

/-- Witness for C6: an existing one-row table provides the auto-resume
timestamp when no explicit `since` is passed; the remote immediately hits the
known pipeline, so the run is a no-op. -/
theorem claim_C6_witness :
    (SyncResult.mk (some [Line.header, Line.jobRow (sampleJob 70 7 "2024-01-05")]) 0
        (some "2024-01-05") false).usedSince
      = effective_since none (some "2024-01-05")
    ∧ (∀ s, (none : Option String) = some s →
        (SyncResult.mk (some [Line.header, Line.jobRow (sampleJob 70 7 "2024-01-05")]) 0
          (some "2024-01-05") false).usedSince = some s)
    ∧ ((none : Option String) = none →
        (SyncResult.mk (some [Line.header, Line.jobRow (sampleJob 70 7 "2024-01-05")]) 0
          (some "2024-01-05") false).usedSince = some "2024-01-05")
    ∧ ((none : Option String) = none →
        (some [Line.header, Line.jobRow (sampleJob 70 7 "2024-01-05")]
            : Option (List Line)) = none →
        (SyncResult.mk (some [Line.header, Line.jobRow (sampleJob 70 7 "2024-01-05")]) 0
          (some "2024-01-05") false).usedSince = none) :=
  claim_C6 none (some 20) remoteOne jobsEmpty 1
    (some [Line.header, Line.jobRow (sampleJob 70 7 "2024-01-05")])
    [7] (some "2024-01-05")
    (SyncResult.mk (some [Line.header, Line.jobRow (sampleJob 70 7 "2024-01-05")]) 0
      (some "2024-01-05") false)
    rfl rfl

/-- A successful run of the job-fetch loop means every per-pipeline fetch
succeeded. -/
theorem fetchJobsLoop_ok (remoteJobs : Nat → Except Unit (List Job)) :
    ∀ (ps : List Pipeline) (jobs : List Job),
      fetchJobsLoop remoteJobs ps = .ok jobs →
      ∀ p ∈ ps, ∃ js, remoteJobs p.id = .ok js := by
  intro ps
  induction ps with
  | nil => intro jobs _ p hp; simp at hp
  | cons q rest ih =>
    intro jobs h p hp
    simp only [fetchJobsLoop, get_jobs_for_pipeline] at h
    cases hq : remoteJobs q.id with
    | error e => rw [hq] at h; cases h
    | ok js =>
      rw [hq] at h
      cases hr : fetchJobsLoop remoteJobs rest with
      | error e =>
        rw [hr] at h
        cases h
      | ok more =>
        rcases List.mem_cons.mp hp with rfl | hp'
        · exact ⟨js, hq⟩
        · exact ih more hr p hp'

/-- C5: the persistence writer runs at most once per run, only after the
pipeline listing and every per-pipeline job fetch succeeded, and with the
complete accumulated job list; any fetch failure terminates the run with the
persisted table unchanged. -/
theorem claim_C5 (argsSince : Option String) (argsMax : Option Nat)
    (remote : Nat → Except Unit (List Pipeline)) (remoteJobs : Nat → Except Unit (List Job))
    (fuel : Nat) (fs : Option (List Line)) (known : List Nat) (max_date : Option String)
    (r : SyncResult)
    (hread : read_existing_csv fs = .ok (known, max_date))
    (hrun : main' argsSince argsMax remote remoteJobs fuel fs = some r) :
    r.writerCalls ≤ 1
    ∧ (r.exited = true → r.fs = fs ∧ r.writerCalls = 0)
    ∧ (r.writerCalls = 0 → r.fs = fs)
    ∧ (r.writerCalls = 1 →
        ∃ ps n jobs,
          get_pipelines argsMax (effective_since argsSince max_date) known remote fuel
            = some (.ok (ps, n))
          ∧ ps ≠ []
          ∧ fetchJobsLoop remoteJobs ps = .ok jobs
          ∧ (∀ p ∈ ps, ∃ js, remoteJobs p.id = .ok js)
          ∧ r.fs = some (jobs2csv fs jobs (decide (0 < known.length)))
          ∧ r.exited = false) := by
  simp only [main', hread] at hrun
  cases hpl : get_pipelines argsMax (effective_since argsSince max_date) known remote fuel with
  | none => rw [hpl] at hrun; cases hrun
  | some res =>
    rw [hpl] at hrun
    cases res with
    | error e =>
      injection hrun with h'
      subst h'
      refine ⟨by simp, fun _ => ⟨rfl, rfl⟩, fun _ => rfl, ?_⟩
      intro h0
      cases h0
    | ok pr =>
      obtain ⟨pipelines, n⟩ := pr
      by_cases hemp : pipelines.isEmpty
      · simp only [hemp, if_true] at hrun
        injection hrun with h'
        subst h'
        refine ⟨by simp, ?_, fun _ => rfl, ?_⟩
        · intro h0
          cases h0
        · intro h0
          cases h0
      · simp only [hemp, if_false] at hrun
        cases hfj : fetchJobsLoop remoteJobs pipelines with
        | error e =>
          rw [hfj] at hrun
          injection hrun with h'
          subst h'
          refine ⟨by simp, fun _ => ⟨rfl, rfl⟩, fun _ => rfl, ?_⟩
          intro h0
          cases h0
        | ok jobs =>
          rw [hfj] at hrun
          injection hrun with h'
          subst h'
          refine ⟨by simp, ?_, ?_, ?_⟩
          · intro h0
            cases h0
          · intro h0
            cases h0
          · intro _
            refine ⟨pipelines, n, jobs, rfl, ?_, hfj,
              fetchJobsLoop_ok remoteJobs pipelines jobs hfj, rfl, rfl⟩
            intro h0
            subst h0
            simp at hemp

/-- Witness for C5: a fresh store, one new pipeline, one job; the writer runs
exactly once, after the successful fetches, with the full job list. -/
theorem claim_C5_witness :
    (1 : Nat) ≤ 1
    ∧ (false = true →
        (some [Line.header, Line.jobRow (sampleJob 70 7 "2024-02-01")] : Option (List Line))
          = none ∧ (1 : Nat) = 0)
    ∧ ((1 : Nat) = 0 →
        (some [Line.header, Line.jobRow (sampleJob 70 7 "2024-02-01")] : Option (List Line))
          = none)
    ∧ ((1 : Nat) = 1 →
        ∃ ps n jobs,
          get_pipelines (some 20) (effective_since none none) [] remoteOne 1
            = some (.ok (ps, n))
          ∧ ps ≠ []
          ∧ fetchJobsLoop jobsOne ps = .ok jobs
          ∧ (∀ p ∈ ps, ∃ js, jobsOne p.id = .ok js)
          ∧ (some [Line.header, Line.jobRow (sampleJob 70 7 "2024-02-01")] : Option (List Line))
              = some (jobs2csv none jobs (decide (0 < ([] : List Nat).length)))
          ∧ false = false) :=
  claim_C5 none (some 20) remoteOne jobsOne 1 none [] none
    (SyncResult.mk (some [Line.header, Line.jobRow (sampleJob 70 7 "2024-02-01")]) 1 none false)
    rfl rfl

/-- Job rows contain no header line. -/
theorem countHeaders_map_jobRow (jobs : List Job) :
    countHeaders (jobs.map Line.jobRow) = 0 := by
  induction jobs with
  | nil => rfl
  | cons j rest ih =>
    simp only [List.map_cons, countHeaders, List.countP_cons] at ih ⊢
    simp [ih]

/-- `countHeaders` distributes over append. -/
theorem countHeaders_append (l1 l2 : List Line) :
    countHeaders (l1 ++ l2) = countHeaders l1 + countHeaders l2 := by
  simp [countHeaders, List.countP_append]

/-- Taking the length of the left part of an append returns it. -/
theorem take_len_append {α : Type} : ∀ (l l' : List α), (l ++ l').take l.length = l := by
  intro l
  induction l with
  | nil => intro l'; simp
  | cons a rest ih =>
    intro l'
    simp only [List.cons_append, List.length_cons, List.take_succ_cons, ih]

/-- C3 (amended): the writer emits the header exactly when the known-id set
recovered from the store is empty — in particular on a fresh store, but also
on an existing store with no data rows, which is then truncated.  Starting
from no table, any table produced by a run holds exactly one header line, as
its first line; an incremental run over a table with data rows preserves the
table as a prefix and adds no further header. -/
theorem claim_C3_amended :
    (∀ (argsSince : Option String) (argsMax : Option Nat)
        (remote : Nat → Except Unit (List Pipeline)) (remoteJobs : Nat → Except Unit (List Job))
        (fuel : Nat) (r : SyncResult),
      main' argsSince argsMax remote remoteJobs fuel none = some r →
      ∀ lines, r.fs = some lines →
        countHeaders lines = 1 ∧ lines.head? = some Line.header)
    ∧ (∀ (argsSince : Option String) (argsMax : Option Nat)
        (remote : Nat → Except Unit (List Pipeline)) (remoteJobs : Nat → Except Unit (List Job))
        (fuel : Nat) (r : SyncResult) (jobs0 : List Job),
      jobs0 ≠ [] →
      main' argsSince argsMax remote remoteJobs fuel
          (some (Line.header :: jobs0.map Line.jobRow)) = some r →
      ∀ lines, r.fs = some lines →
        countHeaders lines = 1
        ∧ lines.take (1 + jobs0.length) = Line.header :: jobs0.map Line.jobRow) := by
  constructor
  · intro argsSince argsMax remote remoteJobs fuel r hrun lines hlines
    simp only [main', read_existing_csv] at hrun
    cases hpl : get_pipelines argsMax (effective_since argsSince none) [] remote fuel with
    | none => rw [hpl] at hrun; cases hrun
    | some res =>
      rw [hpl] at hrun
      cases res with
      | error e =>
        injection hrun with h'
        subst h'
        cases hlines
      | ok pr =>
        obtain ⟨pipelines, n⟩ := pr
        by_cases hemp : pipelines.isEmpty
        · simp only [hemp, if_true] at hrun
          injection hrun with h'
          subst h'
          cases hlines
        · simp only [hemp, if_false] at hrun
          cases hfj : fetchJobsLoop remoteJobs pipelines with
          | error e =>
            rw [hfj] at hrun
            injection hrun with h'
            subst h'
            cases hlines
          | ok jobs =>
            rw [hfj] at hrun
            injection hrun with h'
            subst h'
            simp only [SyncResult.mk.injEq] at hlines
            have hl : lines = jobs2csv none jobs (decide (0 < ([] : List Nat).length)) := by
              injection hlines with h''
              exact h''.symm
            subst hl
            simp only [jobs2csv, List.length_nil, decide_eq_true_eq]
            constructor
            · simp only [if_neg (by omega : ¬ (0 : Nat) < 0)]
              simp only [countHeaders, List.countP_cons, countHeaders_map_jobRow]
              simp [countHeaders_map_jobRow]
            · simp [if_neg (by omega : ¬ (0 : Nat) < 0)]
  · intro argsSince argsMax remote remoteJobs fuel r jobs0 hne hrun lines hlines
    have hread : read_existing_csv (some (Line.header :: jobs0.map Line.jobRow))
        = .ok (jobs0.map Job.pipeline_id,
               jobs0.foldl (fun a j => pyMaxDate a j.created_at) none) := by
      show collectRows [] none (jobs0.map Line.jobRow) = _
      rw [collectRows_spec]
      simp
    have htake : (Line.header :: jobs0.map Line.jobRow).take (1 + jobs0.length)
        = Line.header :: jobs0.map Line.jobRow := by
      have hlen : 1 + jobs0.length = (Line.header :: jobs0.map Line.jobRow).length := by
        simp only [List.length_cons, List.length_map]
        omega
      rw [hlen, List.take_length]
    have hcount : countHeaders (Line.header :: jobs0.map Line.jobRow) = 1 := by
      simp only [countHeaders, List.countP_cons, countHeaders_map_jobRow]
      simp [countHeaders_map_jobRow]
    simp only [main', hread] at hrun
    cases hpl : get_pipelines argsMax
        (effective_since argsSince (jobs0.foldl (fun a j => pyMaxDate a j.created_at) none))
        (jobs0.map Job.pipeline_id) remote fuel with
    | none => rw [hpl] at hrun; cases hrun
    | some res =>
      rw [hpl] at hrun
      cases res with
      | error e =>
        injection hrun with h'
        subst h'
        injection hlines with h''
        subst h''
        exact ⟨hcount, htake⟩
      | ok pr =>
        obtain ⟨pipelines, n⟩ := pr
        by_cases hemp : pipelines.isEmpty
        · simp only [hemp, if_true] at hrun
          injection hrun with h'
          subst h'
          injection hlines with h''
          subst h''
          exact ⟨hcount, htake⟩
        · simp only [hemp, if_false] at hrun
          cases hfj : fetchJobsLoop remoteJobs pipelines with
          | error e =>
            rw [hfj] at hrun
            injection hrun with h'
            subst h'
            injection hlines with h''
            subst h''
            exact ⟨hcount, htake⟩
          | ok jobs =>
            rw [hfj] at hrun
            injection hrun with h'
            subst h'
            have hap : decide (0 < (jobs0.map Job.pipeline_id).length) = true := by
              simp only [List.length_map, decide_eq_true_eq]
              exact List.length_pos.mpr hne
            injection hlines with h''
            have hl : lines = jobs2csv (some (Line.header :: jobs0.map Line.jobRow)) jobs
                (decide (0 < (jobs0.map Job.pipeline_id).length)) := h''.symm
            subst hl
            rw [hap]
            simp only [jobs2csv, if_true, Option.getD_some]
            constructor
            · rw [countHeaders_append, hcount, countHeaders_map_jobRow]
            · have hlen : 1 + jobs0.length
                  = (Line.header :: jobs0.map Line.jobRow).length := by
                simp only [List.length_cons, List.length_map]
                omega
              rw [hlen, take_len_append]

/-- Counterexample to C3 as stated: an existing-but-empty store (`some []`)
yields an empty known-id set, so the run truncates it and writes a header even
though the store previously existed. -/
theorem claim_C3_counterexample :
    main' none (some 20) remoteOne jobsOne 1 (some [])
      = some ⟨some [Line.header, Line.jobRow (sampleJob 70 7 "2024-02-01")], 1, none, false⟩
    ∧ countHeaders [] = 0
    ∧ (some ([] : List Line)) ≠ (none : Option (List Line)) :=
  ⟨rfl, rfl, by decide⟩

/-- Witness for the amended C3: one fresh-store run and one incremental run
over a one-row table. -/
theorem claim_C3_witness :
    (countHeaders [Line.header, Line.jobRow (sampleJob 70 7 "2024-02-01")] = 1
      ∧ [Line.header, Line.jobRow (sampleJob 70 7 "2024-02-01")].head? = some Line.header)
    ∧ (countHeaders ([Line.header, Line.jobRow (sampleJob 1 5 "2024-01-03")]
          ++ [Line.jobRow (sampleJob 70 7 "2024-02-01")]) = 1
      ∧ ([Line.header, Line.jobRow (sampleJob 1 5 "2024-01-03")]
          ++ [Line.jobRow (sampleJob 70 7 "2024-02-01")]).take
            (1 + ([sampleJob 1 5 "2024-01-03"] : List Job).length)
          = Line.header :: ([sampleJob 1 5 "2024-01-03"] : List Job).map Line.jobRow) := by
  constructor
  · exact claim_C3_amended.1 none (some 20) remoteOne jobsOne 1
      ⟨some [Line.header, Line.jobRow (sampleJob 70 7 "2024-02-01")], 1, none, false⟩ rfl
      [Line.header, Line.jobRow (sampleJob 70 7 "2024-02-01")] rfl
  · exact claim_C3_amended.2 none (some 20) remoteOne jobsOne 1
      ⟨some ([Line.header, Line.jobRow (sampleJob 1 5 "2024-01-03")]
        ++ [Line.jobRow (sampleJob 70 7 "2024-02-01")]), 1, some "2024-01-03", false⟩
      [sampleJob 1 5 "2024-01-03"] (by decide) rfl
      ([Line.header, Line.jobRow (sampleJob 1 5 "2024-01-03")]
        ++ [Line.jobRow (sampleJob 70 7 "2024-02-01")]) rfl

/-- C8 (amended): the fetch operation is fatal — logging the URL and the
status and exiting with status 1, without retrying — for every response whose
status differs from 200 (not merely the non-2xx ones), and for a 200 response
it returns the body decoded as JSON using the declared charset, defaulting to
UTF-8. -/
theorem claim_C8_amended {α : Type} (decodeJson : String → List Nat → α) (url : String)
    (resp : HttpResponse) :
    (resp.status ≠ 200 → http_get_json decodeJson url resp = .fatal url resp.status 1)
    ∧ (resp.status = 200 → http_get_json decodeJson url resp
        = .ok (decodeJson (pyOrStr resp.charset "utf-8") resp.body)) := by
  constructor
  · intro h
    simp [http_get_json, h]
  · intro h
    simp [http_get_json, h]

/-- Counterexample to C8 as stated: a 201 Created response is a 2xx success,
yet the code's `status != 200` check treats it as fatal instead of returning
the decoded body. -/
theorem claim_C8_counterexample :
    ((200 : Nat) ≤ 201 ∧ (201 : Nat) < 300)
    ∧ http_get_json (fun (_ : String) (_ : List Nat) => (0 : Nat)) "https:u" (HttpResponse.mk 201 none [])
        = FetchOutcome.fatal "https:u" 201 1
    ∧ http_get_json (fun (_ : String) (_ : List Nat) => (0 : Nat)) "https:u" (HttpResponse.mk 201 none [])
        ≠ FetchOutcome.ok ((fun (_ : String) (_ : List Nat) => (0 : Nat)) (pyOrStr none "utf-8") []) :=
  ⟨⟨by omega, by omega⟩, rfl, by decide⟩

/-- Witness for the amended C8: a 404 response is fatal with the URL and
status logged; a 200 response with a declared charset decodes with it. -/
theorem claim_C8_witness :
    http_get_json (fun (_ : String) (_ : List Nat) => (0 : Nat)) "https:u" (HttpResponse.mk 404 none [])
      = FetchOutcome.fatal "https:u" 404 1
    ∧ http_get_json (fun (_ : String) (_ : List Nat) => (0 : Nat)) "https:u" (HttpResponse.mk 200 (some "latin-1") [1, 2])
      = FetchOutcome.ok ((fun (_ : String) (_ : List Nat) => (0 : Nat)) (pyOrStr (some "latin-1") "utf-8") [1, 2]) :=
  ⟨(claim_C8_amended (fun (_ : String) (_ : List Nat) => (0 : Nat)) "https:u" (HttpResponse.mk 404 none [])).1 (by decide),
   (claim_C8_amended (fun (_ : String) (_ : List Nat) => (0 : Nat)) "https:u" (HttpResponse.mk 200 (some "latin-1") [1, 2])).2 rfl⟩
